import Mathlib

/-!
  Verification of the dynamic specification-filter engine of the
  annual-promo catalog app and of the PIM catalog normalizer.

  The Python sources are shallowly embedded: pandas cells are
  `Option String` (`none` = NA), a data-frame row is an association list
  from column name to cell, numeric cell values are parsed into `ℚ`
  (the code parses decimal literals with `float`), and the two anchored
  regular expressions of the filter code are embedded as deterministic
  greedy parsers (the patterns involved never need backtracking beyond
  the optional fraction / sign, which is resolved below exactly as the
  regex engine resolves it).
-/

namespace AnnualPromo

/-- Characters matched by the Python regex class `\s` and stripped by
`str.strip` (ASCII whitespace; the embedding restricts to ASCII data). -/
def isSpaceChar (c : Char) : Bool :=
  c = ' ' || c = '\t' || c = '\n' || c = '\r' || c = '\x0b' || c = '\x0c'

/-- Numeric value of a list of decimal digit characters. -/
def digitsVal (ds : List Char) : ℕ :=
  ds.foldl (fun n c => 10 * n + (c.toNat - 48)) 0

/-- Greedy parse of the regex fragment `-?\d+(?:\.\d+)?` at the head of the
input, returning the parsed value (exact, as a rational: the cells hold
short decimal literals) and the unconsumed remainder.  Greediness is
faithful: in both cell patterns the fragment is followed either by `(.*)$`
or by `\s*-\s*`, and in each case the maximal munch is the match the
regex engine commits to. -/
def parseNumberToken (cs : List Char) : Option (ℚ × List Char) :=
  let signed := match cs with
    | '-' :: rest => (true, rest)
    | _ => (false, cs)
  let ip := signed.2.takeWhile (fun c => c.isDigit)
  let cs2 := signed.2.dropWhile (fun c => c.isDigit)
  if ip.isEmpty then none
  else
    let whole : ℚ := (digitsVal ip : ℚ)
    let vrest : ℚ × List Char :=
      match cs2 with
      | '.' :: cs3 =>
        let fp := cs3.takeWhile (fun c => c.isDigit)
        let cs4 := cs3.dropWhile (fun c => c.isDigit)
        if fp.isEmpty then (whole, cs2)
        else (whole + (digitsVal fp : ℚ) / ((10 : ℚ) ^ fp.length), cs4)
      | _ => (whole, cs2)
    some (if signed.1 then -vrest.1 else vrest.1, vrest.2)

/-- Capture of a trailing `(.*)$` group in Python default mode: `.` does not
cross a newline, and `$` matches at the very end or just before a single
trailing newline. -/
def tailCapture (cs : List Char) : Option (List Char) :=
  if cs.contains '\n' = false then some cs
  else if cs.getLast? == some '\n' && !(cs.dropLast.contains '\n') then some cs.dropLast
  else none

/-- Python `str.strip()` on a character list (ASCII whitespace). -/
def pyStripL (cs : List Char) : List Char :=
  ((cs.dropWhile isSpaceChar).reverse.dropWhile isSpaceChar).reverse

/-- Python `str.strip()` (ASCII whitespace). -/
def pyStrip (s : String) : String :=
  String.mk (pyStripL s.toList)

/-- ASCII lower-casing of one character. -/
def asciiLower (c : Char) : Char :=
  if 'A' ≤ c ∧ c ≤ 'Z' then Char.ofNat (c.toNat + 32) else c

/-- Python `str.lower()` (ASCII). -/
def pyLower (s : String) : String :=
  String.mk (s.toList.map asciiLower)

/-- Python `str.split(";")`: all fields, empty fields kept. -/
def splitSemis : List Char → List (List Char)
  | [] => [[]]
  | c :: rest =>
    if c = ';' then [] :: splitSemis rest
    else
      match splitSemis rest with
      | [] => [[c]]
      | t :: ts => (c :: t) :: ts

/-- Python `str.split(";", 1)`: the part before the first `;` and, when a
`;` occurs, the remainder after it. -/
def splitFirstSemi : List Char → List Char × Option (List Char)
  | [] => ([], none)
  | c :: rest =>
    if c = ';' then ([], some rest)
    else
      match splitFirstSemi rest with
      | (h, t) => (c :: h, t)

/-- `re.match` of `pattern_number = ^\s*(-?\d+(?:\.\d+)?)(.*)$`
(source line 545): returns the parsed group-1 value and the group-2 text. -/
def numMatch (s : String) : Option (ℚ × String) :=
  match parseNumberToken (s.toList.dropWhile isSpaceChar) with
  | none => none
  | some vr =>
    match tailCapture vr.2 with
    | none => none
    | some g2 => some (vr.1, String.mk g2)

/-- `re.match` of `range_pattern = ^\s*(-?\d+(?:\.\d+)?)\s*-\s*(-?\d+(?:\.\d+)?)(.*)$`
(source line 610): returns the group-1 and group-2 values, in textual
order (no swap), and the group-3 text. -/
def rangeMatch (s : String) : Option (ℚ × ℚ × String) :=
  match parseNumberToken (s.toList.dropWhile isSpaceChar) with
  | none => none
  | some vr =>
    match vr.2.dropWhile isSpaceChar with
    | '-' :: r3 =>
      match parseNumberToken (r3.dropWhile isSpaceChar) with
      | none => none
      | some wr =>
        match tailCapture wr.2 with
        | none => none
        | some g3 => some (vr.1, wr.1, String.mk g3)
    | _ => none

/-- The parse used when building `range_list` (source lines 612-622):
match the range pattern and swap the two endpoints when `low > high`. -/
def rangeParseSwapped (s : String) : Option (ℚ × ℚ) :=
  (rangeMatch s).map (fun t => if t.1 > t.2.1 then (t.2.1, t.1) else (t.1, t.2.1))

/-- Tokens of an LOV cell: `str(cell).split(";")`, each token stripped,
empty tokens discarded (source line 542). -/
def lovTokens (s : String) : List String :=
  (((splitSemis s.toList).map pyStripL).map String.mk).filter (fun t => t ≠ "")

/-- The LOV filter predicate (source lines 541-543): intersection of the
cell token set with the selected options is non-empty; NA cells fail. -/
def match_lov (selected : List String) (cell : Option String) : Bool :=
  match cell with
  | none => false
  | some s => (lovTokens s).any (fun t => selected.contains t)

/-- `match_number` (source lines 585-595): NA fails, a cell matching the
leading-number pattern succeeds iff its value lies in the selected
closed interval, anything else fails. -/
def match_number (sel : ℚ × ℚ) (cell : Option String) : Bool :=
  match cell with
  | none => false
  | some s =>
    match numMatch s with
    | some vr => decide (sel.1 ≤ vr.1) && decide (vr.1 ≤ sel.2)
    | none => false

/-- The logical filter predicate (source lines 607-608): the stripped,
lower-cased cell equals the lower-cased choice; NA cells fail. -/
def match_logical (choice : String) (cell : Option String) : Bool :=
  match cell with
  | none => false
  | some s => pyLower (pyStrip s) == pyLower choice

/-- `match_range` (source lines 656-667): NA fails; a cell matching the
range pattern is parsed into `low = group 1`, `high = group 2` — without
the swap performed by the domain scan — and succeeds iff
`high >= selected_low` and `low <= selected_high`. -/
def match_range (sel : ℚ × ℚ) (cell : Option String) : Bool :=
  match cell with
  | none => false
  | some s =>
    match rangeMatch s with
    | some t => decide (sel.1 ≤ t.2.1) && decide (t.1 ≤ sel.2)
    | none => false

/-- A data-frame row: an association list from column name to cell; a
missing key and an explicit `none` both denote a pandas NA cell. -/
abbrev Row := List (String × Option String)

/-- Cell of a row in a column (`none` = NA). -/
def getCell (r : Row) (c : String) : Option String :=
  (r.lookup c).getD none

/-- `working_df[spec_col].dropna()`: the non-NA cells of a column, in row
order. -/
def colCells (col : String) (rows : List Row) : List String :=
  rows.filterMap (fun r => getCell r col)

/-- Lexicographic comparison of character lists by code point — the order
Python string comparison uses. -/
def charListLe : List Char → List Char → Bool
  | [], _ => true
  | _ :: _, [] => false
  | a :: as, b :: bs =>
    if a.toNat < b.toNat then true
    else if a.toNat = b.toNat then charListLe as bs
    else false

/-- String comparison by code points (Python `<=` on strings). -/
def strLe (a b : String) : Bool :=
  charListLe a.toList b.toList

/-- Insertion into a sorted list of strings (ascending). -/
def insertSorted (s : String) : List String → List String
  | [] => [s]
  | x :: xs => if strLe s x then s :: x :: xs else x :: insertSorted s xs

/-- Python `sorted` on strings (insertion sort; the inputs sorted by the
app are duplicate-free, so stability is irrelevant). -/
def sortStrings (l : List String) : List String :=
  l.foldr insertSorted []

/-- `sorted(set(...))`: distinct values in ascending order. -/
def dedupSort (l : List String) : List String :=
  sortStrings l.dedup

/-- LOV domain (source lines 525-531): sorted set of the distinct trimmed
non-empty `;`-separated tokens over all non-NA cells of the column. -/
def lovOptions (col : String) (rows : List Row) : List String :=
  dedupSort (((colCells col rows).map lovTokens).flatten)

/-- `number_list` (source lines 546-559): parsed leading-number values of
the non-NA cells that match the number pattern, in row order. -/
def numberValues (col : String) (rows : List Row) : List ℚ :=
  (colCells col rows).filterMap (fun s => (numMatch s).map Prod.fst)

/-- `si_unit` selection for a number column (source lines 547-557): the
first non-empty stripped trailing text among the matching cells. -/
def numberUnitScan : List String → String
  | [] => ""
  | s :: rest =>
    match numMatch s with
    | some vr => if pyStrip vr.2 ≠ "" then pyStrip vr.2 else numberUnitScan rest
    | none => numberUnitScan rest

/-- `range_list` (source lines 611-622): the swapped `(low, high)` pairs of
the non-NA cells matching the range pattern, in row order. -/
def rangePairs (col : String) (rows : List Row) : List (ℚ × ℚ) :=
  (colCells col rows).filterMap rangeParseSwapped

/-- `si_unit` scan for a range column (source lines 626-633): walk the
non-NA cells in row order and return the first non-empty stripped trailing
text of a cell matching the range pattern (`break`); cells that match but
have an empty trailing text are passed over. -/
def rangeUnitScan : List String → String
  | [] => ""
  | s :: rest =>
    match rangeMatch s with
    | some t => if pyStrip t.2.2 ≠ "" then pyStrip t.2.2 else rangeUnitScan rest
    | none => rangeUnitScan rest

/-- Python `min` of a non-empty list (the `[]` case is never reached by the
callers, which guard on non-emptiness as the code does). -/
def qMin : List ℚ → ℚ
  | [] => 0
  | x :: xs => xs.foldl min x

/-- Python `max` of a non-empty list. -/
def qMax : List ℚ → ℚ
  | [] => 0
  | x :: xs => xs.foldl max x

/-- Header split (source lines 521-523): `spec_col.split(";", 1)`, the
display name stripped, the kind stripped and lower-cased. -/
def parseHeader (col : String) : String × String :=
  match splitFirstSemi col.toList with
  | (h, none) => (String.mk (pyStripL h), "")
  | (h, some t) => (String.mk (pyStripL h), String.mk ((pyStripL t).map asciiLower))

/-- The domain a spec-filter widget displays. -/
inductive Domain
  | lov (options : List String)
  | number (lo hi : ℚ) (unit : String)
  | logical
  | range (lo hi : ℚ) (unit : String)
deriving DecidableEq

/-- The user-selected state of one spec-filter widget for one rerun:
nothing active, an LOV multiselect value, a ticked number checkbox with its
slider value, a logical radio value, or a ticked range checkbox with its
slider value. -/
inductive SpecChoice
  | inactive
  | lovSel (opts : List String)
  | numSel (lo hi : ℚ)
  | logicalSel (choice : String)
  | rangeSel (lo hi : ℚ)
deriving DecidableEq

/-- The domain offered for one spec column from the current working row
set (source lines 517-653): `none` when the column is skipped because all
cells are NA, or when its kind-specific value scan is empty (no widget);
note a logical column is offered whenever any cell is non-NA. -/
def specColDomain (col : String) (rows : List Row) : Option Domain :=
  if colCells col rows = [] then none
  else if (parseHeader col).2 = "lov" then
    (if lovOptions col rows = [] then none else some (Domain.lov (lovOptions col rows)))
  else if (parseHeader col).2 = "number" then
    (if numberValues col rows = [] then none
     else some (Domain.number (qMin (numberValues col rows)) (qMax (numberValues col rows))
        (numberUnitScan (colCells col rows))))
  else if (parseHeader col).2 = "logical" then some Domain.logical
  else if (parseHeader col).2 = "range" then
    (if rangePairs col rows = [] then none
     else some (Domain.range (qMin ((rangePairs col rows).map Prod.fst))
        (qMax ((rangePairs col rows).map Prod.snd)) (rangeUnitScan (colCells col rows))))
  else none

/-- The filtering action of one spec column on the working row set, with
the applied-filter-count increment (source lines 517-668).  A number or
range checkbox with a degenerate domain (`global_min == global_max`)
overrides the slider value with that degenerate pair, as the code does. -/
def specColFilter (choice : SpecChoice) (col : String) (rows : List Row) : List Row × ℕ :=
  if colCells col rows = [] then (rows, 0)
  else if (parseHeader col).2 = "lov" then
    (if lovOptions col rows = [] then (rows, 0)
     else match choice with
       | SpecChoice.lovSel opts =>
         if opts = [] then (rows, 0)
         else (rows.filter (fun r => match_lov opts (getCell r col)), 1)
       | _ => (rows, 0))
  else if (parseHeader col).2 = "number" then
    (if numberValues col rows = [] then (rows, 0)
     else match choice with
       | SpecChoice.numSel lo hi =>
         (rows.filter (fun r => match_number
             (if qMin (numberValues col rows) = qMax (numberValues col rows)
              then (qMin (numberValues col rows), qMax (numberValues col rows))
              else (lo, hi)) (getCell r col)), 1)
       | _ => (rows, 0))
  else if (parseHeader col).2 = "logical" then
    (match choice with
     | SpecChoice.logicalSel c =>
       if c = "True" ∨ c = "False" then
         (rows.filter (fun r => match_logical c (getCell r col)), 1)
       else (rows, 0)
     | _ => (rows, 0))
  else if (parseHeader col).2 = "range" then
    (if rangePairs col rows = [] then (rows, 0)
     else match choice with
       | SpecChoice.rangeSel lo hi =>
         (rows.filter (fun r => match_range
             (if qMin ((rangePairs col rows).map Prod.fst) = qMax ((rangePairs col rows).map Prod.snd)
              then (qMin ((rangePairs col rows).map Prod.fst), qMax ((rangePairs col rows).map Prod.snd))
              else (lo, hi)) (getCell r col)), 1)
       | _ => (rows, 0))
  else (rows, 0)

/-- The 0-or-1 domain entries a column contributes to the sidebar. -/
def domEntry (col : String) (rows : List Row) : List (String × Domain) :=
  match specColDomain col rows with
  | some d => [(col, d)]
  | none => []

/-- The spec-column loop (source lines 514-671): walk the columns in
order, offering each column its domain computed from the current working
row set and then applying its constraint; returns the final row set, the
offered domains and the applied-filter count. -/
def specPipeline (choices : String → SpecChoice) :
    List String → List Row → List Row × List (String × Domain) × ℕ
  | [], rows => (rows, [], 0)
  | c :: cs, rows =>
    let fl := specColFilter (choices c) c rows
    let rest := specPipeline choices cs fl.1
    (rest.1, domEntry c rows ++ rest.2.1, fl.2 + rest.2.2)

/-- Only the filtering effect of a list of spec columns. -/
def applySpecFilters (choices : String → SpecChoice) (cols : List String) (rows : List Row) :
    List Row :=
  cols.foldl (fun rs c => (specColFilter (choices c) c rs).1) rows

/-- `spec_columns` (source line 516): the table columns containing a `;`,
sorted. -/
def specColumns (cols : List String) : List String :=
  sortStrings (cols.filter (fun c => c.toList.contains ';'))

/-- The whole specification-filter stage (source lines 498-675): only run
when a specific category is selected; in the `"All Categories"` branch the
row set passes through untouched and no widgets, applied-filter count or
model count are produced. -/
def specFiltersStage (selectedCategory : String) (choices : String → SpecChoice)
    (cols : List String) (rows : List Row) :
    List Row × List (String × Domain) × Option ℕ × Option ℕ :=
  if selectedCategory ≠ "All Categories" then
    ((specPipeline choices (specColumns cols) rows).1,
     (specPipeline choices (specColumns cols) rows).2.1,
     some (specPipeline choices (specColumns cols) rows).2.2,
     some (specPipeline choices (specColumns cols) rows).1.length)
  else (rows, [], none, none)

/-- A loaded product table: its column headers and its rows. -/
structure Table where
  cols : List String
  rows : List Row
deriving DecidableEq

/-- Category and series narrowing (source lines 479-494). -/
def categorySeriesStage (category : String) (series : List String) (rows : List Row) :
    List Row :=
  if series ≠ [] then
    (if category ≠ "All Categories"
     then rows.filter (fun r => getCell r "Category" == some category)
     else rows).filter (fun r =>
       match getCell r "Series" with
       | some s => series.contains s
       | none => false)
  else
    (if category ≠ "All Categories"
     then rows.filter (fun r => getCell r "Category" == some category)
     else rows)

/-- The sidebar selections of one interaction cycle. -/
structure Selections where
  category : String
  series : List String
  specChoices : String → SpecChoice

/-- The state an interaction cycle works on: the immutable base table and
the derived view. -/
structure AppState where
  base : Table
  view : List Row

/-- One evaluation cycle (source lines 479-672): the view is recomputed
from a fresh copy of the base table (`filtered_df = df[...].copy()`,
`working_df = filtered_df.copy()`), never from the previous view, and the
base table itself is not written. -/
def runFilterCycle (sel : Selections) (s : AppState) : AppState :=
  { base := s.base,
    view := (specFiltersStage sel.category sel.specChoices s.base.cols
              (categorySeriesStage sel.category sel.series s.base.rows)).1 }

/-- `cats_for_series` (source lines 436-444): the sorted distinct non-NA
categories of the rows whose series is one of the picked series. -/
def catsForSeries (rows : List Row) (picked : List String) : List String :=
  dedupSort ((rows.filter (fun r =>
      match getCell r "Series" with
      | some s => picked.contains s
      | none => false)).filterMap (fun r => getCell r "Category"))

/-- The category auto-sync step (source lines 449-462): when series are
picked and their category list is non-empty and does not contain the
current category, reset it; otherwise keep it. -/
def syncCategory (rows : List Row) (picked : List String) (curCat : String) : String :=
  if picked ≠ [] then
    (if catsForSeries rows picked ≠ [] then
      (if curCat ∈ catsForSeries rows picked then curCat
       else if (catsForSeries rows picked).length = 1
       then (catsForSeries rows picked).headD "All Categories"
       else "All Categories")
     else curCat)
  else curCat

end AnnualPromo

namespace PIM

/-- A row of the PIM tool: an association list from column name to cell;
a missing key and an explicit `none` both denote a pandas NA value. -/
abbrev PRow := List (String × Option String)

/-- `row.get(col, None)` with NA for a missing column. -/
def getv (r : PRow) (c : String) : Option String :=
  (r.lookup c).getD none

/-- The fixed input-to-output column mapping of the PIM tool
(source lines 42-49), in insertion order. -/
def MAPPING : List (String × String) :=
  [("<Publication Link.|Node|.Description Level 02>", "Product Group"),
   ("<Publication Link.|Node|.Description Level 03>", "Category"),
   ("<Publication Link.|Node|.Description Level 04>", "Series"),
   ("Catalog Description", "Name"),
   ("Item Long Description", "Description"),
   ("Primary Image link", "Featured image")]

/-- pandas Series item assignment: overwrite in place when the key exists,
otherwise append the new entry at the end. -/
def setv (r : PRow) (c : String) (v : Option String) : PRow :=
  if (r.lookup c).isSome then r.map (fun p => if p.1 = c then (c, v) else p)
  else r ++ [(c, v)]

/-- `Series.pop(src)`: drop the entry of a key. -/
def popk (r : PRow) (c : String) : PRow :=
  r.filter (fun p => p.1 ≠ c)

/-- `map_row` (source lines 63-77): set every target column from its
source column, then remove the mapped source columns. -/
def map_row (r : PRow) : PRow :=
  MAPPING.foldl (fun acc st => popk acc st.1)
    (MAPPING.foldl (fun acc st => setv acc st.2 (getv acc st.1)) r)

/-- One field-level difference: `(column, existing value, new value)`. -/
abbrev Diff := List (String × Option String × Option String)

/-- `compare_rows` (source lines 80-94): over the union of the two key
sets, skip columns where both values are NA, record a difference where the
values differ (an NA on one side only counts as a difference, as
`ex_val != new_val` does for NaN in Python). -/
def compare_rows (ex new : PRow) : Diff :=
  ((ex.map Prod.fst ++ new.map Prod.fst).dedup).filterMap (fun c =>
    if getv ex c = none ∧ getv new c = none then none
    else if getv ex c ≠ getv new c then some (c, getv ex c, getv new c) else none)

/-- The output table: its column schema and its rows.  Adding a column
with `df[col] = None` extends the schema; the affected cells read back as
NA, which the `PRow` missing-key default already models. -/
structure Table where
  cols : List String
  rows : List PRow
deriving DecidableEq

/-- One step of `add_missing_columns`: extend the schema (and the log)
when the column of the entry is absent. -/
def amcStep (acc : Table × List String) (p : String × Option String) : Table × List String :=
  if p.1 ∈ acc.1.cols then acc
  else ({ cols := acc.1.cols ++ [p.1], rows := acc.1.rows },
        acc.2 ++ ["Added new column: " ++ p.1])

/-- `add_missing_columns` (source lines 97-106): walk the columns of the
new row in order and add each one missing from the schema, logging it. -/
def add_missing_columns (t : Table) (new : PRow) (log : List String) : Table × List String :=
  new.foldl amcStep (t, log)

/-- pandas `==` between an existing cell and the looked-up name: NA on
either side compares false (`NaN == x` is false). -/
def pandasEq : Option String → Option String → Bool
  | some a, some b => a == b
  | _, _ => false

/-- The accumulator threaded by `process_selected_rows` over the selected
input rows. -/
structure ProcState where
  df : Table
  pending : List (Option String × ℕ × PRow × Diff)
  logs : List String
  newRows : List PRow

/-- Python dict assignment `pending_updates[name] = v`. -/
def updPending (l : List (Option String × ℕ × PRow × Diff)) (k : Option String)
    (v : ℕ × PRow × Diff) : List (Option String × ℕ × PRow × Diff) :=
  if (l.lookup k).isSome then l.map (fun p => if p.1 = k then (k, v) else p)
  else l ++ [(k, v)]

/-- The loop body of `process_selected_rows` (source lines 123-140): map
the row; optionally extend the schema; when the output has no `Name`
column or is empty, queue the row for appending; otherwise look for the
first output row with the same name (pandas `==`, then `.index[0]`) and,
when found and differing, record a pending update — the existing row is
not touched; when not found, queue the row for appending. -/
def processRow (autoAdd : Bool) (st : ProcState) (row : PRow) : ProcState :=
  if ¬ ("Name" ∈
      (if autoAdd then add_missing_columns st.df (map_row row) st.logs
       else (st.df, st.logs)).1.cols) ∨
    (if autoAdd then add_missing_columns st.df (map_row row) st.logs
     else (st.df, st.logs)).1.rows = [] then
    { df := (if autoAdd then add_missing_columns st.df (map_row row) st.logs
             else (st.df, st.logs)).1,
      pending := st.pending,
      logs := (if autoAdd then add_missing_columns st.df (map_row row) st.logs
               else (st.df, st.logs)).2,
      newRows := st.newRows ++ [map_row row] }
  else
    match (if autoAdd then add_missing_columns st.df (map_row row) st.logs
           else (st.df, st.logs)).1.rows.findIdx?
        (fun r => pandasEq (getv r "Name") (getv (map_row row) "Name")) with
    | some i =>
      { df := (if autoAdd then add_missing_columns st.df (map_row row) st.logs
               else (st.df, st.logs)).1,
        pending := if compare_rows
            ((if autoAdd then add_missing_columns st.df (map_row row) st.logs
              else (st.df, st.logs)).1.rows.getD i []) (map_row row) ≠ [] then
          updPending st.pending (getv (map_row row) "Name")
            (i, map_row row,
             compare_rows
               ((if autoAdd then add_missing_columns st.df (map_row row) st.logs
                 else (st.df, st.logs)).1.rows.getD i []) (map_row row))
          else st.pending,
        logs := (if autoAdd then add_missing_columns st.df (map_row row) st.logs
                 else (st.df, st.logs)).2,
        newRows := st.newRows }
    | none =>
      { df := (if autoAdd then add_missing_columns st.df (map_row row) st.logs
               else (st.df, st.logs)).1,
        pending := st.pending,
        logs := (if autoAdd then add_missing_columns st.df (map_row row) st.logs
                 else (st.df, st.logs)).2,
        newRows := st.newRows ++ [map_row row] }

/-- The schema after `pd.concat`: the existing columns followed by any new
columns carried by the appended rows, in first-appearance order. -/
def unionCols (cols : List String) (rows : List PRow) : List String :=
  rows.foldl (fun cs r =>
    r.foldl (fun cs2 p => if p.1 ∈ cs2 then cs2 else cs2 ++ [p.1]) cs) cols

/-- `process_selected_rows` (source lines 109-145): fold the loop body
over the selected rows, then append the queued new rows with
`pd.concat(..., ignore_index=True)` and log the count. -/
def process_selected_rows (sel : List PRow) (df0 : Table) (autoAdd : Bool)
    (log0 : List String) : Table × List (Option String × ℕ × PRow × Diff) × List String :=
  if (sel.foldl (processRow autoAdd) ⟨df0, [], log0, []⟩).newRows ≠ [] then
    ({ cols := unionCols (sel.foldl (processRow autoAdd) ⟨df0, [], log0, []⟩).df.cols
         (sel.foldl (processRow autoAdd) ⟨df0, [], log0, []⟩).newRows,
       rows := (sel.foldl (processRow autoAdd) ⟨df0, [], log0, []⟩).df.rows ++
         (sel.foldl (processRow autoAdd) ⟨df0, [], log0, []⟩).newRows },
     (sel.foldl (processRow autoAdd) ⟨df0, [], log0, []⟩).pending,
     (sel.foldl (processRow autoAdd) ⟨df0, [], log0, []⟩).logs ++
       ["Appended " ++
        toString (sel.foldl (processRow autoAdd) ⟨df0, [], log0, []⟩).newRows.length ++
        " new row(s) to output."])
  else
    ((sel.foldl (processRow autoAdd) ⟨df0, [], log0, []⟩).df,
     (sel.foldl (processRow autoAdd) ⟨df0, [], log0, []⟩).pending,
     (sel.foldl (processRow autoAdd) ⟨df0, [], log0, []⟩).logs)

/-- An apostrophe, used verbatim by one of the log messages. -/
def sq : String :=
  String.singleton (Char.ofNat 39)

/-- A sample input row of the PIM tool, used to exercise the reconcile
step on concrete data. -/
def sampleInputRow : PRow :=
  [("<Publication Link.|Node|.Description Level 02>", some "PG"),
   ("<Publication Link.|Node|.Description Level 03>", some "Cat"),
   ("<Publication Link.|Node|.Description Level 04>", some "Ser"),
   ("Catalog Description", some "A"),
   ("Item Long Description", some "new desc"),
   ("Primary Image link", some "img")]

/-- A sample output table holding an existing product named `"A"`. -/
def sampleOutput : Table :=
  { cols := ["Name", "Description"],
    rows := [[("Name", some "A"), ("Description", some "old")]] }

/-- In-place update of one list element. -/
def listModify : List PRow → ℕ → (PRow → PRow) → List PRow
  | [], _, _ => []
  | x :: xs, 0, f => f x :: xs
  | x :: xs, n + 1, f => x :: listModify xs n f

/-- `for col, val in new_row.items(): df.at[idx, col] = val`: override the
fields of a row with every entry of the new row. -/
def overrideRow (r : PRow) (new : PRow) : PRow :=
  new.foldl (fun acc p => setv acc p.1 p.2) r

/-- Applying one confirmed update (source lines 271-275): first extend the
schema with any destination columns absent from it (logging each
addition), then write every field of the new row into the existing row at
the stored index, and log the update. -/
def applyUpdate (t : Table) (i : ℕ) (new : PRow) (prod : String) (log : List String) :
    Table × List String :=
  ({ cols := (add_missing_columns t new log).1.cols,
     rows := listModify (add_missing_columns t new log).1.rows i
       (fun r => overrideRow r new) },
   (add_missing_columns t new log).2 ++
     ["Updated product " ++ sq ++ prod ++ sq ++ " with new values."])

end PIM

namespace AnnualPromo

/-- Claim C2: for every cell and numeric constraint `(lo, hi)`, the number
predicate returns `true` iff the cell is non-NA, matches the leading-number
regex, and its parsed value `v` satisfies `lo ≤ v ≤ hi` (both bounds
inclusive); NA or unparseable cells never match. -/
theorem match_number_iff_inclusive (lo hi : ℚ) (cell : Option String) :
    match_number (lo, hi) cell = true ↔
      ∃ s v rest, cell = some s ∧ numMatch s = some (v, rest) ∧ lo ≤ v ∧ v ≤ hi := by
  cases cell with
  | none => simp [match_number]
  | some s =>
    cases h : numMatch s with
    | none => simp [match_number, h]
    | some vr =>
      obtain ⟨v, rest⟩ := vr
      simp [match_number, h]

/-- Claim C1, counterexample: the claim asserts the range predicate tests
overlap against the auto-swapped interval.  The cell `"20-5"` parses (with
the swap the domain scan performs) to the interval `(5, 20)`, which
overlaps the selected window `(18, 25)` — yet `match_range`, which
re-parses the cell without swapping, rejects it. -/
theorem match_range_no_swap_cex :
    rangeParseSwapped "20-5" = some (5, 20) ∧
      (18 : ℚ) ≤ 20 ∧ (5 : ℚ) ≤ 25 ∧
      match_range (18, 25) (some "20-5") = false := by
  refine ⟨by decide, by norm_num, by norm_num, by decide⟩

/-- Claim C1 (amended): the range predicate does not re-apply the swap: it
returns `true` iff the cell is non-NA, matches the range pattern with
textual-order endpoints `(low, high)` — group 1 and group 2 as written —
and `high ≥ selected_low ∧ low ≤ selected_high`.  For cells whose textual
`low ≤ high` (every normally written range) this is exactly the stated
interval-overlap semantics; NA or non-matching cells never match. -/
theorem match_range_iff_textual_order (sel : ℚ × ℚ) (cell : Option String) :
    match_range sel cell = true ↔
      ∃ s low high rest, cell = some s ∧ rangeMatch s = some (low, high, rest) ∧
        sel.1 ≤ high ∧ low ≤ sel.2 := by
  cases cell with
  | none => simp [match_range]
  | some s =>
    cases h : rangeMatch s with
    | none => simp [match_range, h]
    | some t =>
      obtain ⟨low, high, rest⟩ := t
      have e : match_range sel (some s) = (decide (sel.1 ≤ high) && decide (low ≤ sel.2)) := by
        simp [match_range, h]
      rw [e, Bool.and_eq_true, decide_eq_true_eq, decide_eq_true_eq]
      constructor
      · rintro ⟨h1, h2⟩
        exact ⟨s, low, high, rest, rfl, h, h1, h2⟩
      · rintro ⟨s2, x, y, r2, hs, hm, h1, h2⟩
        injection hs with hs2
        subst hs2
        rw [h] at hm
        simp only [Option.some.injEq, Prod.mk.injEq] at hm
        obtain ⟨rfl, rfl, rfl⟩ := hm
        exact ⟨h1, h2⟩

theorem mem_insertSorted {v s : String} {l : List String} :
    v ∈ insertSorted s l ↔ v = s ∨ v ∈ l := by
  induction l with
  | nil => simp [insertSorted]
  | cons x xs ih =>
    by_cases h : strLe s x = true
    · simp [insertSorted, h]
    · simp [insertSorted, h, ih, or_left_comm]

theorem mem_sortStrings {v : String} {l : List String} :
    v ∈ sortStrings l ↔ v ∈ l := by
  induction l with
  | nil => simp [sortStrings]
  | cons x xs ih =>
    simp only [sortStrings, List.foldr_cons] at *
    rw [mem_insertSorted, ih, List.mem_cons]

theorem mem_dedupSort {v : String} {l : List String} :
    v ∈ dedupSort l ↔ v ∈ l := by
  rw [dedupSort, mem_sortStrings, List.mem_dedup]

theorem foldl_min_le_init (a : ℚ) (l : List ℚ) : l.foldl min a ≤ a := by
  induction l generalizing a with
  | nil => simp
  | cons x xs ih =>
    rw [List.foldl_cons]
    exact le_trans (ih (min a x)) (min_le_left a x)

theorem foldl_min_le_mem (a : ℚ) (l : List ℚ) : ∀ x ∈ l, l.foldl min a ≤ x := by
  induction l generalizing a with
  | nil => intro x hx; cases hx
  | cons y ys ih =>
    intro x hx
    rw [List.foldl_cons]
    rcases List.mem_cons.1 hx with rfl | hx2
    · exact le_trans (foldl_min_le_init (min a x) ys) (min_le_right a x)
    · exact ih (min a y) x hx2

theorem foldl_min_mem (a : ℚ) (l : List ℚ) : l.foldl min a = a ∨ l.foldl min a ∈ l := by
  induction l generalizing a with
  | nil => left; rfl
  | cons y ys ih =>
    rw [List.foldl_cons]
    rcases ih (min a y) with h | h
    · rcases min_choice a y with h2 | h2
      · left; rw [h, h2]
      · right; rw [h, h2]; exact List.mem_cons_self y ys
    · right; exact List.mem_cons_of_mem y h

theorem foldl_max_init_le (a : ℚ) (l : List ℚ) : a ≤ l.foldl max a := by
  induction l generalizing a with
  | nil => simp
  | cons x xs ih =>
    rw [List.foldl_cons]
    exact le_trans (le_max_left a x) (ih (max a x))

theorem foldl_max_mem_le (a : ℚ) (l : List ℚ) : ∀ x ∈ l, x ≤ l.foldl max a := by
  induction l generalizing a with
  | nil => intro x hx; cases hx
  | cons y ys ih =>
    intro x hx
    rw [List.foldl_cons]
    rcases List.mem_cons.1 hx with rfl | hx2
    · exact le_trans (le_max_right a x) (foldl_max_init_le (max a x) ys)
    · exact ih (max a y) x hx2

theorem foldl_max_mem (a : ℚ) (l : List ℚ) : l.foldl max a = a ∨ l.foldl max a ∈ l := by
  induction l generalizing a with
  | nil => left; rfl
  | cons y ys ih =>
    rw [List.foldl_cons]
    rcases ih (max a y) with h | h
    · rcases max_choice a y with h2 | h2
      · left; rw [h, h2]
      · right; rw [h, h2]; exact List.mem_cons_self y ys
    · right; exact List.mem_cons_of_mem y h

theorem qMin_mem {l : List ℚ} (h : l ≠ []) : qMin l ∈ l := by
  match l with
  | [] => exact absurd rfl h
  | x :: xs =>
    rw [qMin]
    rcases foldl_min_mem x xs with h2 | h2
    · rw [h2]; exact List.mem_cons_self x xs
    · exact List.mem_cons_of_mem x h2

theorem qMin_le {l : List ℚ} : ∀ x ∈ l, qMin l ≤ x := by
  match l with
  | [] => intro x hx; cases hx
  | y :: ys =>
    intro x hx
    rw [qMin]
    rcases List.mem_cons.1 hx with rfl | hx2
    · exact foldl_min_le_init x ys
    · exact foldl_min_le_mem y ys x hx2

theorem qMax_mem {l : List ℚ} (h : l ≠ []) : qMax l ∈ l := by
  match l with
  | [] => exact absurd rfl h
  | x :: xs =>
    rw [qMax]
    rcases foldl_max_mem x xs with h2 | h2
    · rw [h2]; exact List.mem_cons_self x xs
    · exact List.mem_cons_of_mem x h2

theorem qMax_ge {l : List ℚ} : ∀ x ∈ l, x ≤ qMax l := by
  match l with
  | [] => intro x hx; cases hx
  | y :: ys =>
    intro x hx
    rw [qMax]
    rcases List.mem_cons.1 hx with rfl | hx2
    · exact foldl_max_init_le x ys
    · exact foldl_max_mem_le y ys x hx2

theorem rangeUnitScan_eq_firstUnit (cells : List String) :
    rangeUnitScan cells =
      (((cells.filterMap (fun s => (rangeMatch s).map (fun t => pyStrip t.2.2))).filter
        (fun u => u ≠ "")).headD "") := by
  induction cells with
  | nil => rfl
  | cons s cs ih =>
    cases h : rangeMatch s with
    | none => simp [rangeUnitScan, h, ih]
    | some t =>
      by_cases hu : pyStrip t.2.2 = ""
      · simp [rangeUnitScan, h, hu, ih]
      · simp [rangeUnitScan, h, hu]

theorem specPipeline_rows_eq (choices : String → SpecChoice) (cols : List String)
    (rows : List Row) :
    (specPipeline choices cols rows).1 = applySpecFilters choices cols rows := by
  induction cols generalizing rows with
  | nil => rfl
  | cons c cs ih => simp [specPipeline, applySpecFilters, List.foldl_cons, ih]

/-- Claim C3: in the spec-filter loop the domain offered for a column `c`
is computed from the working row set obtained by applying exactly the
constraints of the columns handled before `c` (and whatever upstream rows
the stage received), and before applying the constraint of `c` itself:
`domEntry c` takes no constraint for `c` at all, and the tail of the loop
continues from the row set with the filter of `c` applied.  The first
conjunct identifies the working row set threaded by the loop with the
composition of the preceding per-column filters. -/
theorem spec_domain_before_own_constraint (choices : String → SpecChoice)
    (cs1 : List String) (c : String) (cs2 : List String) (rows : List Row) :
    (specPipeline choices cs1 rows).1 = applySpecFilters choices cs1 rows ∧
    (specPipeline choices (cs1 ++ c :: cs2) rows).2.1 =
      (specPipeline choices cs1 rows).2.1 ++
        (domEntry c (applySpecFilters choices cs1 rows) ++
          (specPipeline choices cs2
            ((specColFilter (choices c) c (applySpecFilters choices cs1 rows)).1)).2.1) := by
  refine ⟨specPipeline_rows_eq choices cs1 rows, ?_⟩
  induction cs1 generalizing rows with
  | nil => simp [specPipeline, applySpecFilters]
  | cons a as ih =>
    simp only [List.cons_append, specPipeline, applySpecFilters, List.foldl_cons,
      List.append_eq]
    rw [ih]
    simp [applySpecFilters, List.append_assoc]

/-- Claim C5: the LOV domain is monotone in the row set — over a subset of
the rows every offered LOV option is also offered over the superset, so
narrowing an upstream stage can only shrink or preserve a downstream LOV
domain. -/
theorem lov_domain_monotone (col : String) (R R2 : List Row)
    (hsub : ∀ r ∈ R, r ∈ R2) :
    ∀ v ∈ lovOptions col R, v ∈ lovOptions col R2 := by
  intro v hv
  rw [lovOptions, mem_dedupSort] at hv ⊢
  simp only [List.mem_flatten, List.mem_map, colCells, List.mem_filterMap] at hv ⊢
  obtain ⟨l, ⟨s, ⟨r, hr, hcell⟩, rfl⟩, hvl⟩ := hv
  exact ⟨lovTokens s, ⟨s, ⟨r, hsub r hr, hcell⟩, rfl⟩, hvl⟩

theorem lov_domain_monotone_witness :
    "Red" ∈ lovOptions "Color;lov"
      [[("Color;lov", some "Red; Blue")], [("Color;lov", some "Green")]] :=
  lov_domain_monotone "Color;lov" [[("Color;lov", some "Red; Blue")]]
    [[("Color;lov", some "Red; Blue")], [("Color;lov", some "Green")]]
    (by decide) "Red" (by decide)

/-- Claim C6, counterexample: a `logical` column whose only cell is the
non-NA but unparseable text `"maybe"` (not case-insensitively `"true"` or
`"false"`) is still offered, with the fixed three-way domain — the code
hides the widget only when every cell is NA, not when no cell is
parseable. -/
theorem logical_offered_without_parseable_cex :
    specColDomain "Waterproof;logical" [[("Waterproof;logical", some "maybe")]] =
        some Domain.logical ∧
      ((colCells "Waterproof;logical" [[("Waterproof;logical", some "maybe")]]).all
        (fun s => !(pyLower (pyStrip s) == "true" || pyLower (pyStrip s) == "false"))) = true := by
  constructor
  · decide
  · decide

/-- Claim C6 (amended): for a column declared `logical` the offered domain
is always the fixed three-way choice (`Domain.logical`, i.e. Any/True/False)
regardless of cell contents, and the widget is withheld exactly when every
cell of the column in the current row set is NA — a non-NA cell keeps the
widget offered even when it parses to neither `"true"` nor `"false"`. -/
theorem logical_domain_fixed_iff_nonnull (col : String) (rows : List Row)
    (hty : (parseHeader col).2 = "logical") :
    specColDomain col rows = if colCells col rows = [] then none else some Domain.logical := by
  by_cases h : colCells col rows = [] <;> simp [specColDomain, hty, h]

theorem logical_domain_fixed_iff_nonnull_witness :
    specColDomain "Waterproof;logical" [[("Waterproof;logical", some "TRUE ")]] =
      some Domain.logical := by
  rw [logical_domain_fixed_iff_nonnull "Waterproof;logical"
    [[("Waterproof;logical", some "TRUE ")]] (by decide)]
  decide

/-- Claim C7: one interaction cycle never mutates the base table (second
conjunct), and it recomputes the view from the base table rather than from
the previous view, so the outcome is independent of whatever derived view
an earlier evaluation left behind (third conjunct, for an arbitrary
previous view `v`); hence re-running the cycle with the same constraint
set is idempotent (first conjunct) and repeated evaluations with unchanged
constraints yield identical result rows. -/
theorem run_filter_cycle_idempotent (sel : Selections) (s : AppState) (v : List Row) :
    runFilterCycle sel (runFilterCycle sel s) = runFilterCycle sel s ∧
      (runFilterCycle sel s).base = s.base ∧
      runFilterCycle sel { base := s.base, view := v } = runFilterCycle sel s :=
  ⟨rfl, rfl, rfl⟩

/-- Claim C10: whenever the selected category is the neutral
`"All Categories"` value, the entire spec-filter stage is skipped: for any
stored spec constraints the result rows are the input rows unchanged, no
spec widget domains are offered, and neither an applied-filter count nor a
model count is produced. -/
theorem spec_stage_skipped_all_categories (choices : String → SpecChoice)
    (cols : List String) (rows : List Row) :
    specFiltersStage "All Categories" choices cols rows = (rows, [], none, none) := by
  simp [specFiltersStage]

/-- Claim C4, counterexample: the selected series `"X100"` is non-empty
but occurs in no current row, so the set of categories containing a
selected series is empty; the current category `"Controllers"` is
(vacuously) not among them, yet the code leaves the category unchanged
instead of resetting it to the neutral `"All Categories"` state, because
the reset branch runs only when the compatible-category list is
non-empty. -/
theorem sync_category_no_compatible_cex :
    syncCategory [[("Category", some "Controllers"), ("Series", some "Y1")]] ["X100"]
        "Controllers" = "Controllers" ∧
      catsForSeries [[("Category", some "Controllers"), ("Series", some "Y1")]] ["X100"] = [] ∧
      "Controllers" ∉
        catsForSeries [[("Category", some "Controllers"), ("Series", some "Y1")]] ["X100"] ∧
      ("Controllers" : String) ≠ "All Categories" ∧ (["X100"] : List String) ≠ [] := by
  refine ⟨by decide, by decide, by decide, by decide, by decide⟩

/-- Claim C4 (amended): whenever the set of selected series is non-empty
and at least one category contains a selected series, an incompatible
current category is reset — to the single compatible category when exactly
one exists, otherwise to the neutral `"All Categories"` state; when no
category contains any selected series (the compatible set is empty), the
current category is left unchanged. -/
theorem sync_category_reset (rows : List Row) (picked : List String) (curCat : String)
    (hp : picked ≠ []) :
    (catsForSeries rows picked ≠ [] → curCat ∉ catsForSeries rows picked →
      syncCategory rows picked curCat =
        if (catsForSeries rows picked).length = 1
        then (catsForSeries rows picked).headD "All Categories"
        else "All Categories") ∧
    (catsForSeries rows picked = [] → syncCategory rows picked curCat = curCat) := by
  constructor
  · intro hc hnot
    simp [syncCategory, hp, hc, hnot]
  · intro hc
    simp [syncCategory, hp, hc]

theorem sync_category_reset_witness :
    syncCategory [[("Category", some "Sensors"), ("Series", some "X100")]] ["X100"]
      "Controllers" = "Sensors" := by
  have h := (sync_category_reset [[("Category", some "Sensors"), ("Series", some "X100")]]
    ["X100"] "Controllers" (by decide)).1 (by decide) (by decide)
  rw [h]
  decide

/-- Claim C8: for a range column with at least one parsing cell, the
offered domain is `(minimum of the parsed lows, maximum of the parsed
highs)` over the current row set together with the scanned unit, the
bound characterizations being genuine minimum/maximum properties; and the
unit equals the trailing text of the first cell, in iteration order, whose
range match yields a non-empty stripped trailing string — cells that match
but have an empty trailing text are skipped by the scan. -/
theorem range_domain_bounds_and_unit (col : String) (rows : List Row)
    (hty : (parseHeader col).2 = "range")
    (hne : rangePairs col rows ≠ []) :
    specColDomain col rows =
      some (Domain.range (qMin ((rangePairs col rows).map Prod.fst))
                         (qMax ((rangePairs col rows).map Prod.snd))
                         (rangeUnitScan (colCells col rows))) ∧
    qMin ((rangePairs col rows).map Prod.fst) ∈ (rangePairs col rows).map Prod.fst ∧
    (∀ x ∈ (rangePairs col rows).map Prod.fst, qMin ((rangePairs col rows).map Prod.fst) ≤ x) ∧
    qMax ((rangePairs col rows).map Prod.snd) ∈ (rangePairs col rows).map Prod.snd ∧
    (∀ x ∈ (rangePairs col rows).map Prod.snd, x ≤ qMax ((rangePairs col rows).map Prod.snd)) ∧
    rangeUnitScan (colCells col rows) =
      (((colCells col rows).filterMap (fun s => (rangeMatch s).map (fun t => pyStrip t.2.2))).filter
        (fun u => u ≠ "")).headD "" := by
  have hcc : colCells col rows ≠ [] := by
    intro h
    apply hne
    rw [rangePairs, h]
    rfl
  have hmapf : (rangePairs col rows).map Prod.fst ≠ [] := by
    simpa using hne
  have hmaps : (rangePairs col rows).map Prod.snd ≠ [] := by
    simpa using hne
  refine ⟨?_, qMin_mem hmapf, qMin_le, qMax_mem hmaps, qMax_ge,
    rangeUnitScan_eq_firstUnit _⟩
  simp [specColDomain, hty, hcc, hne]

theorem range_domain_bounds_and_unit_witness :
    specColDomain "Temp;range"
        [[("Temp;range", some "5-3")], [("Temp;range", some "1-2 K")]] =
      some (Domain.range 1 5 "K") := by
  have h := range_domain_bounds_and_unit "Temp;range"
    [[("Temp;range", some "5-3")], [("Temp;range", some "1-2 K")]] (by decide) (by decide)
  rw [h.1]
  decide

end AnnualPromo

namespace PIM

theorem amcStep_rows (acc : Table × List String) (p : String × Option String) :
    (amcStep acc p).1.rows = acc.1.rows := by
  unfold amcStep
  split <;> rfl

theorem amc_fold_rows (new : PRow) : ∀ acc : Table × List String,
    (new.foldl amcStep acc).1.rows = acc.1.rows := by
  induction new with
  | nil => intro acc; rfl
  | cons p ps ih => intro acc; rw [List.foldl_cons, ih, amcStep_rows]

theorem amc_rows (t : Table) (new : PRow) (log : List String) :
    (add_missing_columns t new log).1.rows = t.rows :=
  amc_fold_rows new (t, log)

theorem amcStep_cols_mono {c : String} (acc : Table × List String)
    (p : String × Option String) (h : c ∈ acc.1.cols) : c ∈ (amcStep acc p).1.cols := by
  unfold amcStep
  split
  · exact h
  · exact List.mem_append_left _ h

theorem amc_fold_cols_mono {c : String} (new : PRow) : ∀ acc : Table × List String,
    c ∈ acc.1.cols → c ∈ (new.foldl amcStep acc).1.cols := by
  induction new with
  | nil => intro acc h; exact h
  | cons p ps ih =>
    intro acc h
    rw [List.foldl_cons]
    exact ih _ (amcStep_cols_mono acc p h)

theorem amcStep_adds (acc : Table × List String) (p : String × Option String) :
    p.1 ∈ (amcStep acc p).1.cols := by
  unfold amcStep
  by_cases h : p.1 ∈ acc.1.cols
  · rw [if_pos h]; exact h
  · rw [if_neg h]; exact List.mem_append_right _ (List.mem_singleton.mpr rfl)

theorem amc_fold_key (new : PRow) : ∀ (acc : Table × List String) (c : String)
    (v : Option String), (c, v) ∈ new → c ∈ (new.foldl amcStep acc).1.cols := by
  induction new with
  | nil => intro acc c v h; cases h
  | cons p ps ih =>
    intro acc c v h
    rw [List.foldl_cons]
    rcases List.mem_cons.1 h with h1 | h2
    · subst h1
      exact amc_fold_cols_mono ps _ (amcStep_adds acc (c, v))
    · exact ih _ c v h2

theorem amc_fold_logs (new : PRow) (hnd : (new.map Prod.fst).Nodup) :
    ∀ (t : Table) (log : List String),
    (new.foldl amcStep (t, log)).2 =
      log ++ ((new.map Prod.fst).filter (fun c => c ∉ t.cols)).map
        (fun c => "Added new column: " ++ c) := by
  induction new with
  | nil => intro t log; simp
  | cons p ps ih =>
    rw [List.map_cons, List.nodup_cons] at hnd
    obtain ⟨hp, hps⟩ := hnd
    intro t log
    rw [List.foldl_cons]
    by_cases h : p.1 ∈ t.cols
    · have e : amcStep (t, log) p = (t, log) := by
        unfold amcStep; rw [if_pos h]
      rw [e, ih hps t log, List.map_cons, List.filter_cons]
      simp [h]
    · have e : amcStep (t, log) p =
          ({ cols := t.cols ++ [p.1], rows := t.rows }, log ++ ["Added new column: " ++ p.1]) := by
        unfold amcStep; rw [if_neg h]
      have hfc2 : List.filter
            (fun c => decide (c ∉ (Table.mk (t.cols ++ [p.1]) t.rows).cols))
            (ps.map Prod.fst) =
          List.filter (fun c => decide (c ∉ t.cols)) (ps.map Prod.fst) := by
        apply List.filter_congr
        intro x hx
        have hxp : x ≠ p.1 := fun hh => hp (hh ▸ hx)
        simp [List.mem_append, hxp]
      rw [e, ih hps _ _, List.map_cons]
      simp only [List.filter_cons]
      rw [if_pos (show decide (p.1 ∉ t.cols) = true by simpa using h)]
      rw [hfc2, List.map_cons]
      simp

theorem listModify_getD_self (l : List PRow) (f : PRow → PRow) :
    ∀ i, i < l.length → (listModify l i f).getD i [] = f (l.getD i []) := by
  induction l with
  | nil => intro i h; exact absurd h (Nat.not_lt_zero i)
  | cons x xs ih =>
    intro i h
    cases i with
    | zero => rfl
    | succ n =>
      simp only [listModify, List.getD_cons_succ]
      exact ih n (Nat.lt_of_succ_lt_succ h)

theorem listModify_getD_other (l : List PRow) (f : PRow → PRow) :
    ∀ i j, j ≠ i → (listModify l i f).getD j [] = l.getD j [] := by
  induction l with
  | nil => intro i j hne; cases i <;> rfl
  | cons x xs ih =>
    intro i j hne
    cases i with
    | zero =>
      cases j with
      | zero => exact absurd rfl hne
      | succ m => simp [listModify, List.getD_cons_succ]
    | succ n =>
      cases j with
      | zero => rfl
      | succ m =>
        simp only [listModify, List.getD_cons_succ]
        exact ih n m (fun hh => hne (by rw [hh]))

theorem lookup_cons_key (a : String) (b : Option String) (es : PRow) (c : String)
    (h : c = a) : List.lookup c ((a, b) :: es) = some b := by
  rw [List.lookup_cons]
  subst h
  simp

theorem lookup_cons_other (a : String) (b : Option String) (es : PRow) (c : String)
    (h : ¬ c = a) : List.lookup c ((a, b) :: es) = List.lookup c es := by
  rw [List.lookup_cons]
  have hb : (c == a) = false := beq_false_of_ne h
  rw [hb]

theorem lookup_replaceKey (k : String) (v : Option String) (c : String) (r : PRow) :
    (r.map (fun p => if p.1 = k then (k, v) else p)).lookup c =
      if c = k then (r.lookup k).map (fun _ => v) else r.lookup c := by
  induction r with
  | nil => by_cases h : c = k <;> simp [h]
  | cons p ps ih =>
    obtain ⟨a, b⟩ := p
    rw [List.map_cons]
    by_cases hak : a = k
    · have hh : (if ((a, b) : String × Option String).1 = k then (k, v) else (a, b)) = (k, v) := by
        simp [hak]
      rw [hh]
      by_cases hck : c = k
      · rw [lookup_cons_key k v _ c hck, if_pos hck,
          lookup_cons_key a b ps k hak.symm]
        rfl
      · have hca : ¬ c = a := fun hh2 => hck (hak ▸ hh2)
        rw [lookup_cons_other k v _ c hck, ih, if_neg hck, if_neg hck,
          lookup_cons_other a b ps c hca]
    · have hh : (if ((a, b) : String × Option String).1 = k then (k, v) else (a, b)) = (a, b) := by
        simp [hak]
      rw [hh]
      by_cases hca : c = a
      · have hck : ¬ c = k := fun hh2 => hak (by rw [← hca]; exact hh2)
        rw [lookup_cons_key a b _ c hca, if_neg hck, lookup_cons_key a b ps c hca]
      · rw [lookup_cons_other a b _ c hca, ih]
        by_cases hck : c = k
        · have hka : ¬ k = a := fun hh2 => hak hh2.symm
          rw [if_pos hck, if_pos hck, lookup_cons_other a b ps k hka]
        · rw [if_neg hck, if_neg hck, lookup_cons_other a b ps c hca]

theorem lookup_append_pim (l1 l2 : PRow) (c : String) :
    (l1 ++ l2).lookup c = ((l1.lookup c).orElse (fun _ => l2.lookup c)) := by
  induction l1 with
  | nil => simp
  | cons p ps ih =>
    obtain ⟨a, b⟩ := p
    by_cases h : c = a
    · rw [List.cons_append, lookup_cons_key a b _ c h, lookup_cons_key a b ps c h]
      rfl
    · rw [List.cons_append, lookup_cons_other a b _ c h, lookup_cons_other a b ps c h, ih]

theorem lookup_none_of_key_absent (c : String) : ∀ (l : PRow),
    c ∉ l.map Prod.fst → l.lookup c = none := by
  intro l
  induction l with
  | nil => intro h; rfl
  | cons p ps ih =>
    intro h
    rw [List.map_cons, List.mem_cons] at h
    push_neg at h
    obtain ⟨a, b⟩ := p
    rw [lookup_cons_other a b ps c h.1]
    exact ih h.2

theorem getv_setv (r : PRow) (k c : String) (v : Option String) :
    getv (setv r k v) c = if c = k then v else getv r c := by
  unfold setv
  by_cases hk : (r.lookup k).isSome
  · rw [if_pos hk]
    unfold getv
    rw [lookup_replaceKey]
    by_cases hck : c = k
    · rw [if_pos hck, if_pos hck]
      obtain ⟨w, hw⟩ := Option.isSome_iff_exists.1 hk
      rw [hw]
      rfl
    · rw [if_neg hck, if_neg hck]
  · rw [if_neg hk]
    unfold getv
    rw [lookup_append_pim]
    by_cases hck : c = k
    · have hnone : r.lookup c = none := by
        rw [hck]
        exact Option.not_isSome_iff_eq_none.1 hk
      rw [if_pos hck, hnone, lookup_cons_key k v [] c hck]
      rfl
    · rw [if_neg hck]
      cases hr : r.lookup c with
      | none => simp [hr, lookup_cons_other k v [] c hck]
      | some w => simp [hr]

theorem getv_overrideRow (new : PRow) (hnd : (new.map Prod.fst).Nodup) :
    ∀ (r : PRow) (c : String),
    getv (overrideRow r new) c =
      if (new.lookup c).isSome then getv new c else getv r c := by
  induction new with
  | nil => intro r c; simp [overrideRow, getv]
  | cons p ps ih =>
    obtain ⟨a, b⟩ := p
    rw [List.map_cons, List.nodup_cons] at hnd
    obtain ⟨hp, hps⟩ := hnd
    intro r c
    have e : overrideRow r ((a, b) :: ps) = overrideRow (setv r a b) ps := by
      rw [overrideRow, overrideRow, List.foldl_cons]
    rw [e, ih hps]
    by_cases hck : c = a
    · have hn : ps.lookup c = none := lookup_none_of_key_absent c ps (by rw [hck]; exact hp)
      have hl : ((a, b) :: ps).lookup c = some b := lookup_cons_key a b ps c hck
      rw [hn, hl]
      simp only [Option.isSome_none, Option.isSome_some, Bool.false_eq_true, if_false, if_true]
      rw [getv_setv, if_pos hck]
      unfold getv
      rw [hl]
      rfl
    · have hl : ((a, b) :: ps).lookup c = ps.lookup c := lookup_cons_other a b ps c hck
      rw [hl]
      cases hps2 : ps.lookup c with
      | some w =>
        rw [if_pos (show (some w).isSome = true from rfl),
          if_pos (show (some w).isSome = true from rfl)]
        unfold getv
        rw [hl]
      | none =>
        have hf : ¬ ((none : Option (Option String)).isSome = true) := by simp
        rw [if_neg hf, if_neg hf, getv_setv, if_neg hck]

theorem updPending_nil (k : Option String) (v : ℕ × PRow × Diff) :
    updPending [] k v = [(k, v)] := by
  unfold updPending
  simp

theorem amc_cols_mono {c : String} (t : Table) (new : PRow) (log : List String)
    (h : c ∈ t.cols) : c ∈ (add_missing_columns t new log).1.cols :=
  amc_fold_cols_mono new (t, log) h

theorem processRow_existing (autoAdd : Bool) (st : ProcState) (row : PRow) (i : ℕ)
    (hname : "Name" ∈ st.df.cols) (hne : st.df.rows ≠ [])
    (hfind : st.df.rows.findIdx?
      (fun r => pandasEq (getv r "Name") (getv (map_row row) "Name")) = some i) :
    processRow autoAdd st row =
      { df := (if autoAdd then add_missing_columns st.df (map_row row) st.logs
               else (st.df, st.logs)).1,
        pending := if compare_rows (st.df.rows.getD i []) (map_row row) ≠ [] then
            updPending st.pending (getv (map_row row) "Name")
              (i, map_row row, compare_rows (st.df.rows.getD i []) (map_row row))
          else st.pending,
        logs := (if autoAdd then add_missing_columns st.df (map_row row) st.logs
                 else (st.df, st.logs)).2,
        newRows := st.newRows } := by
  unfold processRow
  obtain ⟨m, hm⟩ : ∃ m, map_row row = m := ⟨_, rfl⟩
  rw [hm] at hfind ⊢
  have hrows : (if autoAdd then add_missing_columns st.df m st.logs
      else (st.df, st.logs)).1.rows = st.df.rows := by
    cases autoAdd with
    | false => rfl
    | true => exact amc_rows st.df m st.logs
  have hcols : "Name" ∈ (if autoAdd then add_missing_columns st.df m st.logs
      else (st.df, st.logs)).1.cols := by
    cases autoAdd with
    | false => exact hname
    | true => exact amc_cols_mono st.df m st.logs hname
  rw [if_neg (by push_neg; exact ⟨hcols, fun hh => hne (hrows ▸ hh)⟩)]
  rw [hrows, hfind]

theorem process_singleton (row : PRow) (df0 : Table) (autoAdd : Bool) (log0 : List String)
    (i : ℕ) (hname : "Name" ∈ df0.cols) (hne : df0.rows ≠ [])
    (hfind : df0.rows.findIdx?
      (fun r => pandasEq (getv r "Name") (getv (map_row row) "Name")) = some i) :
    process_selected_rows [row] df0 autoAdd log0 =
      ((if autoAdd then add_missing_columns df0 (map_row row) log0 else (df0, log0)).1,
       (if compare_rows (df0.rows.getD i []) (map_row row) ≠ [] then
          [(getv (map_row row) "Name", i, map_row row,
            compare_rows (df0.rows.getD i []) (map_row row))]
        else []),
       (if autoAdd then add_missing_columns df0 (map_row row) log0 else (df0, log0)).2) := by
  unfold process_selected_rows
  rw [List.foldl_cons, List.foldl_nil,
    processRow_existing autoAdd ⟨df0, [], log0, []⟩ row i hname hne hfind]
  obtain ⟨m, hm⟩ : ∃ m, map_row row = m := ⟨_, rfl⟩
  rw [hm]
  rw [if_neg (fun hh => hh rfl)]
  simp [updPending_nil]


theorem amc_logs (t : Table) (new : PRow) (log : List String)
    (hnd : (new.map Prod.fst).Nodup) :
    (add_missing_columns t new log).2 =
      log ++ ((new.map Prod.fst).filter (fun c => c ∉ t.cols)).map
        (fun c => "Added new column: " ++ c) :=
  amc_fold_logs new hnd t log

theorem reconcile_conflicts_and_apply
    (row : PRow) (df0 : Table) (autoAdd : Bool) (log0 : List String) (i : ℕ)
    (hname : "Name" ∈ df0.cols)
    (hfind : df0.rows.findIdx?
      (fun r => pandasEq (getv r "Name") (getv (map_row row) "Name")) = some i)
    (t : Table) (j : ℕ) (upd : PRow) (prod : String) (log : List String)
    (hj : j < t.rows.length)
    (hnd : (upd.map Prod.fst).Nodup) :
    (process_selected_rows [row] df0 autoAdd log0).1.rows = df0.rows ∧
    (compare_rows (df0.rows.getD i []) (map_row row) ≠ [] →
      (process_selected_rows [row] df0 autoAdd log0).2.1 =
        [(getv (map_row row) "Name", i, map_row row,
          compare_rows (df0.rows.getD i []) (map_row row))]) ∧
    (compare_rows (df0.rows.getD i []) (map_row row) = [] →
      (process_selected_rows [row] df0 autoAdd log0).2.1 = []) ∧
    (∀ c v, (c, v) ∈ upd → c ∈ (applyUpdate t j upd prod log).1.cols) ∧
    ((applyUpdate t j upd prod log).2 =
      log ++ ((upd.map Prod.fst).filter (fun c => c ∉ t.cols)).map
          (fun c => "Added new column: " ++ c) ++
        ["Updated product " ++ sq ++ prod ++ sq ++ " with new values."]) ∧
    (∀ c, getv ((applyUpdate t j upd prod log).1.rows.getD j []) c =
      if (upd.lookup c).isSome then getv upd c else getv (t.rows.getD j []) c) ∧
    (∀ j2, j2 ≠ j → (applyUpdate t j upd prod log).1.rows.getD j2 [] = t.rows.getD j2 []) := by
  have hne : df0.rows ≠ [] := by
    intro h
    rw [h] at hfind
    simp [List.findIdx?] at hfind
  have hps := process_singleton row df0 autoAdd log0 i hname hne hfind
  refine ⟨?_, ?_, ?_, ?_, ?_, ?_, ?_⟩
  · rw [hps]
    cases autoAdd
    · rfl
    · simp [amc_rows]
  · intro hd
    rw [hps, if_pos hd]
  · intro hd
    rw [hps, if_neg (show ¬ (compare_rows (df0.rows.getD i []) (map_row row) ≠ [])
      from fun hcon => hcon hd)]
  · intro c v hcv
    unfold applyUpdate
    exact amc_fold_key upd (t, log) c v hcv
  · unfold applyUpdate
    rw [amc_logs t upd log hnd, List.append_assoc]
  · intro c
    unfold applyUpdate
    have hrows : (add_missing_columns t upd log).1.rows = t.rows := amc_rows t upd log
    rw [hrows, listModify_getD_self t.rows _ j hj, getv_overrideRow upd hnd]
  · intro j2 hj2
    unfold applyUpdate
    rw [amc_rows t upd log, listModify_getD_other t.rows _ j j2 hj2]

theorem reconcile_conflicts_and_apply_witness :
    (process_selected_rows [sampleInputRow] sampleOutput true []).1.rows = sampleOutput.rows ∧
    (process_selected_rows [sampleInputRow] sampleOutput true []).2.1 =
      [(getv (map_row sampleInputRow) "Name", 0, map_row sampleInputRow,
        compare_rows (sampleOutput.rows.getD 0 []) (map_row sampleInputRow))] ∧
    "Featured image" ∈ (applyUpdate sampleOutput 0 (map_row sampleInputRow) "A" []).1.cols ∧
    getv ((applyUpdate sampleOutput 0 (map_row sampleInputRow) "A" []).1.rows.getD 0 [])
      "Description" = some "new desc" := by
  have h := reconcile_conflicts_and_apply sampleInputRow sampleOutput true [] 0
    (by decide) (by decide) sampleOutput 0 (map_row sampleInputRow) "A" []
    (by decide) (by decide)
  refine ⟨h.1, h.2.1 (by decide), ?_, ?_⟩
  · exact h.2.2.2.1 "Featured image" (some "img") (by decide)
  · rw [h.2.2.2.2.2.1 "Description"]
    decide

end PIM
